import Mathlib

/-!
# Verification of `HdVtBufferSource` (pxr/imaging/lib/hd/vtBufferSource.h)

A shallow embedding of the `HdVtBufferSource` class and the parts of its
environment it depends on.  The inline member function bodies (`GetName`,
`GetData`, `GetTupleType`, `AddBufferSpecs`, `Resolve`) are translated
directly from the header.  The out-of-line bodies (`_SetValue`,
`GetNumElements`, `_CheckValid`, `GetDefaultMatrixType`, the matrix
constructors) and the collaborators from other translation units
(`HdBufferSource`'s resolution state machine, `HdGetValueData`,
`HdGetValueTupleType`, `HdTupleType`) are not part of the available
sources; those are modelled from the specification, as marked in each
doc comment.
-/

set_option maxRecDepth 4000

/-- The closed enumeration of component types.  Modelled from the spec:
`HdType` (declared in `pxr/imaging/hd/types.h`, not among the available
sources) is "a closed enumeration (signed/unsigned 8/16/32-bit ints,
16/32/64-bit floats, and fixed-size vector/matrix variants built from
those)"; a representative subset suffices for the supported value shapes
modelled below, plus the two 4x4 matrix types that the header's
`GetDefaultMatrixType` documentation names (`HdTypeFloatMat4`,
`HdTypeDoubleMat4`) and the invalid marker used for unmappable types. -/
inductive HdType where
  | HdTypeInvalid
  | HdTypeInt32
  | HdTypeFloat
  | HdTypeDouble
  | HdTypeFloatMat4
  | HdTypeDoubleMat4
deriving DecidableEq, Repr

/-- Modelled from the spec: `HdTupleType` (declared in
`pxr/imaging/hd/types.h`, not among the available sources) is the pair
`{componentType, componentCount}`: the base component type together with
the number of components per element.  Field names follow the C++
struct (`type`, `count`). -/
structure HdTupleType where
  type : HdType
  count : Nat
deriving DecidableEq, Repr

/-- A 4x4 matrix payload, modelled as its flat list of 16 scalar entries.
Scalar payloads are modelled as integers: the numeric identity of a
float/double entry is irrelevant to every property proved here, and the
single-to-double precision conversion performed by the matrix
constructor paths is modelled as a change of the representation tag
only, preserving the entries. -/
def Mat4 : Type := List Int
deriving DecidableEq, Repr

/-- Modelled from the spec: `VtValue` (from `pxr/base/vt/value.h`, not
among the available sources) is "one opaque, dynamically-typed value
(scalar, vector, matrix, or homogeneous array of any of these)".  The
closed set of supported runtime shapes modelled here has scalar, 3-vector
and 4x4-matrix element types in single and double precision plus 32-bit
ints, their homogeneous arrays, and one unmappable runtime type
(`unknownVal`) that has no entry in the type-mapping table. -/
inductive VtValue where
  | intVal (x : Int)
  | floatVal (x : Int)
  | doubleVal (x : Int)
  | vec3fVal (x y z : Int)
  | vec3dVal (x y z : Int)
  | mat4fVal (m : Mat4)
  | mat4dVal (m : Mat4)
  | intArray (xs : List Int)
  | floatArray (xs : List Int)
  | vec3fArray (xs : List (Int × Int × Int))
  | mat4fArray (ms : List Mat4)
  | mat4dArray (ms : List Mat4)
  | unknownVal (tag : String)
deriving DecidableEq, Repr

/-- Modelled from the spec: `HdGetValueTupleType` (from
`pxr/imaging/hd/types.h`, not among the available sources) looks up "the
value's runtime type in a fixed type-mapping table (scalar/vector/matrix
element types → `{componentType, baseComponentCount}`)"; the base
component count is the value's intrinsic component multiplicity ("16 for
a 4×4 matrix, 3 for a 3-vector", 1 for a scalar), and an array maps the
same way as its element type.  An unmappable runtime type has no entry,
rendered as `{HdTypeInvalid, 0}`. -/
def HdGetValueTupleType : VtValue → HdTupleType
  | .intVal _ => ⟨HdType.HdTypeInt32, 1⟩
  | .floatVal _ => ⟨HdType.HdTypeFloat, 1⟩
  | .doubleVal _ => ⟨HdType.HdTypeDouble, 1⟩
  | .vec3fVal _ _ _ => ⟨HdType.HdTypeFloat, 3⟩
  | .vec3dVal _ _ _ => ⟨HdType.HdTypeDouble, 3⟩
  | .mat4fVal _ => ⟨HdType.HdTypeFloat, 16⟩
  | .mat4dVal _ => ⟨HdType.HdTypeDouble, 16⟩
  | .intArray _ => ⟨HdType.HdTypeInt32, 1⟩
  | .floatArray _ => ⟨HdType.HdTypeFloat, 1⟩
  | .vec3fArray _ => ⟨HdType.HdTypeFloat, 3⟩
  | .mat4fArray _ => ⟨HdType.HdTypeFloat, 16⟩
  | .mat4dArray _ => ⟨HdType.HdTypeDouble, 16⟩
  | .unknownVal _ => ⟨HdType.HdTypeInvalid, 0⟩

/-- Modelled from the spec: `HdGetValueData` (from
`pxr/imaging/hd/types.h`, not among the available sources) "returns a raw
read-only view into the held value's internal storage"; modelled as the
flat list of scalar components of the held value. -/
def HdGetValueData : VtValue → List Int
  | .intVal x => [x]
  | .floatVal x => [x]
  | .doubleVal x => [x]
  | .vec3fVal x y z => [x, y, z]
  | .vec3dVal x y z => [x, y, z]
  | .mat4fVal m => m
  | .mat4dVal m => m
  | .intArray xs => xs
  | .floatArray xs => xs
  | .vec3fArray xs => xs.flatMap (fun p => [p.1, p.2.1, p.2.2])
  | .mat4fArray ms => ms.flatMap id
  | .mat4dArray ms => ms.flatMap id
  | .unknownVal _ => []

/-- Modelled from the spec: the resolution state of the base class
`HdBufferSource` (declared in `pxr/imaging/hd/bufferSource.h`, not among
the available sources) is "one of {Unresolved, Resolving, Resolved}". -/
inductive HdResolutionState where
  | Unresolved
  | Resolving
  | Resolved
deriving DecidableEq, Repr

/-- Numeric order of the resolution states, used to state monotonicity:
`Unresolved < Resolving < Resolved`. -/
def HdResolutionState.ord : HdResolutionState → Nat
  | .Unresolved => 0
  | .Resolving => 1
  | .Resolved => 2

/-- The buffer spec `{name, tupleType}` pushed by `AddBufferSpecs`
(`HdBufferSpec`, declared in `pxr/imaging/hd/bufferSpec.h`, not among the
available sources; its two constructor arguments are taken from the
header's inline call `HdBufferSpec(_name, _tupleType)`). -/
structure HdBufferSpec where
  name : String
  tupleType : HdTupleType
deriving DecidableEq, Repr

/-- The state of an `HdVtBufferSource` object: the private fields of the
class (`_name`, `_value`, `_tupleType`, `_numElements` from the header)
together with the resolution state inherited from `HdBufferSource`
(modelled from the spec, see `HdResolutionState`).  `TfToken` is modelled
as `String`. -/
structure HdVtBufferSource where
  name : String
  value : VtValue
  tupleType : HdTupleType
  numElements : Nat
  state : HdResolutionState
deriving DecidableEq, Repr

/-- Modelled from the spec: the constructor helper
`HdVtBufferSource::_SetValue(v, arraySize)` (body in
`vtBufferSource.cpp`, not among the available sources) stores the value
and derives the tuple type "by looking up the value's runtime type in a
fixed type-mapping table ..., then set componentCount = baseComponentCount
× arraySize", and the element count as the "number of top-level array
entries in the held value (1 if scalar-shaped)".  Returns the derived
`(_tupleType, _numElements)` pair. -/
def HdVtBufferSource._SetValue (v : VtValue) (arraySize : Nat) :
    HdTupleType × Nat :=
  let base := HdGetValueTupleType v
  (⟨base.type, base.count * arraySize⟩,
   match v with
   | .intArray xs => xs.length
   | .floatArray xs => xs.length
   | .vec3fArray xs => xs.length
   | .mat4fArray ms => ms.length
   | .mat4dArray ms => ms.length
   | _ => 1)

/-- The `VtValue`-taking constructor
`HdVtBufferSource(name, value, arraySize)` : stores the name and value
and runs the `_SetValue` helper; a new source starts unresolved
(modelled from the spec's state machine: fresh sources are
`Unresolved`). -/
def HdVtBufferSource.ofValue (name : String) (value : VtValue)
    (arraySize : Nat) : HdVtBufferSource :=
  let d := HdVtBufferSource._SetValue value arraySize
  ⟨name, value, d.1, d.2, HdResolutionState.Unresolved⟩

/-- `HdVtBufferSource::GetDefaultMatrixType()` (body in
`vtBufferSource.cpp`, not among the available sources; modelled from the
spec and the header's doc comment): "The default is HdTypeFloatMat4, but
if HD_ENABLE_DOUBLEMATRIX is true, then HdTypeDoubleMat4 is used
instead."  The process-wide flag is passed explicitly. -/
def HdVtBufferSource.GetDefaultMatrixType (hdEnableDoubleMatrix : Bool) :
    HdType :=
  if hdEnableDoubleMatrix then HdType.HdTypeDoubleMat4
  else HdType.HdTypeFloatMat4

/-- Modelled from the spec: the single-matrix constructor
`HdVtBufferSource(name, matrix)` (body in `vtBufferSource.cpp`, not among
the available sources) converts the matrix "to the platform's selected
default matrix representation ..., wrap as a one-element array, then
follow path 1 with arraySize = 1".  The precision conversion preserves
the entries in this model (see `Mat4`). -/
def HdVtBufferSource.ofMatrix (hdEnableDoubleMatrix : Bool)
    (name : String) (matrix : Mat4) : HdVtBufferSource :=
  HdVtBufferSource.ofValue name
    (if hdEnableDoubleMatrix then VtValue.mat4dArray [matrix]
     else VtValue.mat4fArray [matrix]) 1

/-- Modelled from the spec: the matrix-array constructor
`HdVtBufferSource(name, matrices, arraySize)` (body in
`vtBufferSource.cpp`, not among the available sources) converts "every
matrix in the array to the default matrix representation, preserving
order, then follow path 1". -/
def HdVtBufferSource.ofMatrixArray (hdEnableDoubleMatrix : Bool)
    (name : String) (matrices : List Mat4) (arraySize : Nat) :
    HdVtBufferSource :=
  HdVtBufferSource.ofValue name
    (if hdEnableDoubleMatrix then VtValue.mat4dArray matrices
     else VtValue.mat4fArray matrices) arraySize

/-- `GetName` from the header: `return _name;`. -/
def HdVtBufferSource.GetName (b : HdVtBufferSource) : String :=
  b.name

/-- `GetData` from the header: `return HdGetValueData(_value);`. -/
def HdVtBufferSource.GetData (b : HdVtBufferSource) : List Int :=
  HdGetValueData b.value

/-- `GetTupleType` from the header: `return _tupleType;`. -/
def HdVtBufferSource.GetTupleType (b : HdVtBufferSource) : HdTupleType :=
  b.tupleType

/-- `GetNumElements` (body in `vtBufferSource.cpp`, not among the
available sources; modelled from the spec: "returns the cached
`numElements`"). -/
def HdVtBufferSource.GetNumElements (b : HdVtBufferSource) : Nat :=
  b.numElements

/-- `AddBufferSpecs` from the header:
`specs->push_back(HdBufferSpec(_name, _tupleType));`. -/
def HdVtBufferSource.AddBufferSpecs (b : HdVtBufferSource)
    (specs : List HdBufferSpec) : List HdBufferSpec :=
  specs ++ [⟨b.name, b.tupleType⟩]

/-- `_CheckValid` (body in `vtBufferSource.cpp`, not among the available
sources; modelled from the spec: "returns whether the stored value's
runtime type was successfully mapped to a `tupleType` at construction
time"). -/
def HdVtBufferSource._CheckValid (b : HdVtBufferSource) : Bool :=
  b.tupleType.type ≠ HdType.HdTypeInvalid

/-- `IsValid` of the base class (declared in
`pxr/imaging/hd/bufferSource.h`, not among the available sources;
modelled from the spec: "used by `IsValid()`" / "`_CheckValid()`: ...
used by `IsValid()`"). -/
def HdVtBufferSource.IsValid (b : HdVtBufferSource) : Bool :=
  b._CheckValid

/-- Modelled from the spec: `_TryLock` of the base class
(`TryAcquireResolution` in the spec's terms; declared in
`pxr/imaging/hd/bufferSource.h`, not among the available sources)
"atomically transitions Unresolved → Resolving for exactly one caller;
all other concurrent callers observe the state already non-`Unresolved`
and receive failure".  Returns the success flag with the updated
object. -/
def HdVtBufferSource._TryLock (b : HdVtBufferSource) :
    Bool × HdVtBufferSource :=
  if b.state = HdResolutionState.Unresolved then
    (true, { b with state := HdResolutionState.Resolving })
  else
    (false, b)

/-- Modelled from the spec: `_SetResolved` of the base class
(`MarkResolved` in the spec's terms; declared in
`pxr/imaging/hd/bufferSource.h`, not among the available sources)
"transitions `Resolving → Resolved`". -/
def HdVtBufferSource._SetResolved (b : HdVtBufferSource) :
    HdVtBufferSource :=
  { b with state := HdResolutionState.Resolved }

/-- `Resolve` from the header, translated line by line:
`if (!_TryLock()) return false; _SetResolved(); return true;`. -/
def HdVtBufferSource.Resolve (b : HdVtBufferSource) :
    Bool × HdVtBufferSource :=
  let r := b._TryLock
  if !r.1 then (false, r.2)
  else (true, r.2._SetResolved)

/-- Whether the type-mapping table has an entry for the runtime type of
the value: every modelled shape but `unknownVal` is supported. -/
def VtValue.isSupported : VtValue → Bool
  | .unknownVal _ => false
  | _ => true

/-- Spec-side restatement, following the claim's words: the intrinsic
component count of a value's type — "16 for a 4x4 matrix, 3 for a
3-vector, 1 for a scalar" (an array has the intrinsic count of its
element type). -/
def VtValue.intrinsicComponentCount : VtValue → Nat
  | .intVal _ => 1
  | .floatVal _ => 1
  | .doubleVal _ => 1
  | .vec3fVal _ _ _ => 3
  | .vec3dVal _ _ _ => 3
  | .mat4fVal _ => 16
  | .mat4dVal _ => 16
  | .intArray _ => 1
  | .floatArray _ => 1
  | .vec3fArray _ => 3
  | .mat4fArray _ => 16
  | .mat4dArray _ => 16
  | .unknownVal _ => 0

/-- Spec-side restatement, following the claim's words: the correct
component-type enumeration value for each supported runtime type (the
base scalar type of the value's elements). -/
def VtValue.expectedComponentType : VtValue → HdType
  | .intVal _ => HdType.HdTypeInt32
  | .floatVal _ => HdType.HdTypeFloat
  | .doubleVal _ => HdType.HdTypeDouble
  | .vec3fVal _ _ _ => HdType.HdTypeFloat
  | .vec3dVal _ _ _ => HdType.HdTypeDouble
  | .mat4fVal _ => HdType.HdTypeFloat
  | .mat4dVal _ => HdType.HdTypeDouble
  | .intArray _ => HdType.HdTypeInt32
  | .floatArray _ => HdType.HdTypeFloat
  | .vec3fArray _ => HdType.HdTypeFloat
  | .mat4fArray _ => HdType.HdTypeFloat
  | .mat4dArray _ => HdType.HdTypeDouble
  | .unknownVal _ => HdType.HdTypeInvalid

/-- C1: for every supported scalar, vector, or matrix runtime type and
every arraySize, constructing an `HdVtBufferSource` and calling
`GetTupleType()` yields a tuple type whose component count equals
arraySize times the intrinsic component count of the held value's type
and whose component type is the correct enumeration value for that
runtime type, with the source still unresolved (`Resolve()` never
called). -/
theorem getTupleType_arraySize_mul_intrinsic (name : String) (v : VtValue)
    (arraySize : Nat) (_h : v.isSupported = true) :
    (HdVtBufferSource.ofValue name v arraySize).GetTupleType.count
        = arraySize * v.intrinsicComponentCount
    ∧ (HdVtBufferSource.ofValue name v arraySize).GetTupleType.type
        = v.expectedComponentType
    ∧ (HdVtBufferSource.ofValue name v arraySize).state
        = HdResolutionState.Unresolved := by
  clear _h
  cases v <;>
    simp [HdVtBufferSource.ofValue, HdVtBufferSource._SetValue,
      HdVtBufferSource.GetTupleType, HdGetValueTupleType,
      VtValue.intrinsicComponentCount, VtValue.expectedComponentType,
      Nat.mul_comm]

/-- Witness for C1 at a concrete input: a 4x4 double matrix with
arraySize 2 yields component count 32 = 2 × 16 and component type
Double, before any resolution. -/
theorem getTupleType_arraySize_mul_intrinsic_witness :
    (VtValue.mat4dVal (List.replicate 16 0)).isSupported = true
    ∧ ((HdVtBufferSource.ofValue "transform"
          (VtValue.mat4dVal (List.replicate 16 0)) 2).GetTupleType.count
        = 2 * (VtValue.mat4dVal (List.replicate 16 0)).intrinsicComponentCount
      ∧ (HdVtBufferSource.ofValue "transform"
          (VtValue.mat4dVal (List.replicate 16 0)) 2).GetTupleType.type
        = (VtValue.mat4dVal (List.replicate 16 0)).expectedComponentType
      ∧ (HdVtBufferSource.ofValue "transform"
          (VtValue.mat4dVal (List.replicate 16 0)) 2).state
        = HdResolutionState.Unresolved) :=
  ⟨by decide,
   getTupleType_arraySize_mul_intrinsic "transform"
     (VtValue.mat4dVal (List.replicate 16 0)) 2 (by decide)⟩

/-- C4: after `Resolve()` has returned true, `GetNumElements()` equals
the number of top-level array entries in the held value — 1 for a
scalar-shaped value, the array length for an array value, 0 for an empty
array — and building from an empty array is not an error: `Resolve()`
returns true and `IsValid()` is true in that case. -/
theorem getNumElements_after_resolve (name : String) (v : VtValue)
    (arraySize : Nat) :
    ((HdVtBufferSource.ofValue name v arraySize).Resolve.1 = true
      ∧ (HdVtBufferSource.ofValue name v arraySize).Resolve.2.GetNumElements
          = (match v with
             | .intArray xs => xs.length
             | .floatArray xs => xs.length
             | .vec3fArray xs => xs.length
             | .mat4fArray ms => ms.length
             | .mat4dArray ms => ms.length
             | _ => 1))
    ∧ ((HdVtBufferSource.ofValue name (VtValue.floatArray []) arraySize).Resolve.1
          = true
        ∧ (HdVtBufferSource.ofValue name (VtValue.floatArray []) arraySize).IsValid
          = true
        ∧ (HdVtBufferSource.ofValue name
            (VtValue.floatArray []) arraySize).Resolve.2.GetNumElements = 0) := by
  refine ⟨⟨?_, ?_⟩, ?_, ?_, ?_⟩ <;>
    simp [HdVtBufferSource.ofValue, HdVtBufferSource._SetValue,
      HdVtBufferSource.Resolve, HdVtBufferSource._TryLock,
      HdVtBufferSource._SetResolved, HdVtBufferSource.GetNumElements,
      HdVtBufferSource.IsValid, HdVtBufferSource._CheckValid,
      HdGetValueTupleType]

/-- C5: a held value whose runtime type has no entry in the type-mapping
table produces a source that is marked invalid at construction —
`IsValid()`/`_CheckValid()` return false without requiring resolution
(the source is still unresolved) — and the tuple type never has a
component count greater than 0. -/
theorem unmappable_type_invalid (name : String) (v : VtValue)
    (arraySize : Nat)
    (h : (HdGetValueTupleType v).type = HdType.HdTypeInvalid) :
    (HdVtBufferSource.ofValue name v arraySize).IsValid = false
    ∧ (HdVtBufferSource.ofValue name v arraySize)._CheckValid = false
    ∧ (HdVtBufferSource.ofValue name v arraySize).state
        = HdResolutionState.Unresolved
    ∧ ¬ (HdVtBufferSource.ofValue name v arraySize).GetTupleType.count > 0 := by
  cases v <;>
    simp_all [HdGetValueTupleType, HdVtBufferSource.ofValue,
      HdVtBufferSource._SetValue, HdVtBufferSource.IsValid,
      HdVtBufferSource._CheckValid, HdVtBufferSource.GetTupleType]

/-- Witness for C5 at a concrete input: a held value of unmappable
runtime type (tagged "GfQuath") yields an invalid, unresolved source with
component count 0. -/
theorem unmappable_type_invalid_witness :
    (HdGetValueTupleType (VtValue.unknownVal "GfQuath")).type
        = HdType.HdTypeInvalid
    ∧ ((HdVtBufferSource.ofValue "q" (VtValue.unknownVal "GfQuath") 1).IsValid
        = false
      ∧ (HdVtBufferSource.ofValue "q" (VtValue.unknownVal "GfQuath") 1)._CheckValid
        = false
      ∧ (HdVtBufferSource.ofValue "q" (VtValue.unknownVal "GfQuath") 1).state
        = HdResolutionState.Unresolved
      ∧ ¬ (HdVtBufferSource.ofValue "q"
            (VtValue.unknownVal "GfQuath") 1).GetTupleType.count > 0) :=
  ⟨by decide,
   unmappable_type_invalid "q" (VtValue.unknownVal "GfQuath") 1 (by decide)⟩

/-- C6: constructing a source from a single 4x4 matrix and constructing
one from a one-element array holding the same matrix (with arraySize 1)
produce equivalent sources: identical tuple type and identical resolved
data content (both resolving successfully), for either setting of the
default-matrix-precision flag. -/
theorem matrix_ctor_equivalent (flag : Bool) (name : String) (m : Mat4) :
    (HdVtBufferSource.ofMatrix flag name m).GetTupleType
        = (HdVtBufferSource.ofMatrixArray flag name [m] 1).GetTupleType
    ∧ (HdVtBufferSource.ofMatrix flag name m).Resolve.2.GetData
        = (HdVtBufferSource.ofMatrixArray flag name [m] 1).Resolve.2.GetData
    ∧ (HdVtBufferSource.ofMatrix flag name m).Resolve.1 = true
    ∧ (HdVtBufferSource.ofMatrixArray flag name [m] 1).Resolve.1 = true := by
  cases flag <;>
    simp [HdVtBufferSource.ofMatrix, HdVtBufferSource.ofMatrixArray,
      HdVtBufferSource.ofValue, HdVtBufferSource._SetValue,
      HdVtBufferSource.Resolve, HdVtBufferSource._TryLock,
      HdVtBufferSource._SetResolved, HdVtBufferSource.GetTupleType,
      HdVtBufferSource.GetData]

/-- C7: `GetDefaultMatrixType()` is a pure function of the process-wide
double-precision flag: it returns the double-precision 4x4 matrix type
if and only if the flag is enabled, and the single-precision 4x4 matrix
type otherwise. -/
theorem getDefaultMatrixType_flag (flag : Bool) :
    (HdVtBufferSource.GetDefaultMatrixType flag = HdType.HdTypeDoubleMat4
      ↔ flag = true)
    ∧ (flag = false →
        HdVtBufferSource.GetDefaultMatrixType flag = HdType.HdTypeFloatMat4) := by
  cases flag <;> simp [HdVtBufferSource.GetDefaultMatrixType]

/-- Witness for C7 at the two concrete flag values: flag off gives the
single-precision matrix type, flag on gives the double-precision one. -/
theorem getDefaultMatrixType_flag_witness :
    HdVtBufferSource.GetDefaultMatrixType false = HdType.HdTypeFloatMat4
    ∧ HdVtBufferSource.GetDefaultMatrixType true = HdType.HdTypeDoubleMat4 :=
  ⟨(getDefaultMatrixType_flag false).2 rfl,
   (getDefaultMatrixType_flag true).1.mpr rfl⟩

/-- C9: `Resolve()` mutates only the resolution state: the name, the
held value, the tuple type, and the cached element count are unchanged,
so `GetName()`, `GetData()`, `GetTupleType()` and `GetNumElements()`
return the same values before and after any `Resolve()` call. -/
theorem resolve_frame_condition (b : HdVtBufferSource) :
    b.Resolve.2.GetName = b.GetName
    ∧ b.Resolve.2.value = b.value
    ∧ b.Resolve.2.GetData = b.GetData
    ∧ b.Resolve.2.GetTupleType = b.GetTupleType
    ∧ b.Resolve.2.GetNumElements = b.GetNumElements := by
  by_cases hs : b.state = HdResolutionState.Unresolved <;>
    simp [HdVtBufferSource.Resolve, HdVtBufferSource._TryLock,
      HdVtBufferSource._SetResolved, HdVtBufferSource.GetName,
      HdVtBufferSource.GetData, HdVtBufferSource.GetTupleType,
      HdVtBufferSource.GetNumElements, hs]

/-- C10: `GetData()` is total and independent of resolution state: it is
the pure view `HdGetValueData` of the held value, may be evaluated with
the source in any resolution state with the same result, and returns the
same view before and after a `Resolve()` call. -/
theorem getData_state_independent (b : HdVtBufferSource) :
    b.GetData = HdGetValueData b.value
    ∧ b.Resolve.2.GetData = b.GetData
    ∧ ∀ s : HdResolutionState, ({ b with state := s } : HdVtBufferSource).GetData
        = b.GetData := by
  refine ⟨rfl, ?_, fun s => rfl⟩
  by_cases hs : b.state = HdResolutionState.Unresolved <;>
    simp [HdVtBufferSource.Resolve, HdVtBufferSource._TryLock,
      HdVtBufferSource._SetResolved, HdVtBufferSource.GetData, hs]

/-- N sequential calls to `Resolve()` on the same object: the list of
returned flags together with the final object state. -/
def HdVtBufferSource.resolveSeq : Nat → HdVtBufferSource →
    List Bool × HdVtBufferSource
  | 0, b => ([], b)
  | n + 1, b =>
    let r := b.Resolve
    let rest := HdVtBufferSource.resolveSeq n r.2
    (r.1 :: rest.1, rest.2)

/-- On an already-resolved object, every further sequential `Resolve()`
call fails `_TryLock` and returns false, leaving the object unchanged. -/
theorem resolveSeq_resolved (n : Nat) (b : HdVtBufferSource)
    (hb : b.state = HdResolutionState.Resolved) :
    HdVtBufferSource.resolveSeq n b = (List.replicate n false, b) := by
  induction n with
  | zero => simp [HdVtBufferSource.resolveSeq]
  | succ n ih =>
    simp [HdVtBufferSource.resolveSeq, HdVtBufferSource.Resolve,
      HdVtBufferSource._TryLock, hb, ih, List.replicate_succ]

/-- C3 counterexample: on an initially unresolved source, the first
`Resolve()` call returns true, but the very next sequential call —
made after resolution has completed — returns false, not true. -/
theorem resolve_after_resolution_returns_false :
    (HdVtBufferSource.ofValue "points" (VtValue.floatArray [1, 2, 3]) 1).Resolve.1
        = true
    ∧ (HdVtBufferSource.ofValue "points"
        (VtValue.floatArray [1, 2, 3]) 1).Resolve.2.Resolve.1 = false := by
  decide

/-- C3 amended: calling `Resolve()` N+1 ≥ 1 times sequentially on an
initially unresolved source returns true exactly on the first call —
which performs the transition to Resolved — and false on every
subsequent call (the `_TryLock` compare-and-swap fails on a non-
Unresolved state), with no re-work: the object stays Resolved and
`GetNumElements()` is stable across all those calls. -/
theorem resolve_first_true_then_false (name : String) (v : VtValue)
    (arraySize n : Nat) :
    (HdVtBufferSource.resolveSeq (n + 1)
        (HdVtBufferSource.ofValue name v arraySize)).1
      = true :: List.replicate n false
    ∧ (HdVtBufferSource.resolveSeq (n + 1)
        (HdVtBufferSource.ofValue name v arraySize)).2.GetNumElements
      = (HdVtBufferSource.ofValue name v arraySize).GetNumElements
    ∧ (HdVtBufferSource.resolveSeq (n + 1)
        (HdVtBufferSource.ofValue name v arraySize)).2.state
      = HdResolutionState.Resolved := by
  have h1 : (HdVtBufferSource.ofValue name v arraySize).Resolve
      = (true, { HdVtBufferSource.ofValue name v arraySize with
                  state := HdResolutionState.Resolved }) := by
    simp [HdVtBufferSource.ofValue, HdVtBufferSource.Resolve,
      HdVtBufferSource._TryLock, HdVtBufferSource._SetResolved]
  have h2 := resolveSeq_resolved n
    ({ HdVtBufferSource.ofValue name v arraySize with
        state := HdResolutionState.Resolved }) rfl
  simp [HdVtBufferSource.resolveSeq, h1, h2, HdVtBufferSource.GetNumElements]

/-- The public operations of the class, used to state invariants over
arbitrary operation sequences. -/
inductive HdOp where
  | getName
  | getData
  | getTupleType
  | getNumElements
  | addBufferSpecs
  | isValid
  | resolve
deriving DecidableEq, Repr

/-- Effect of one public operation on the object state.  The accessors
are const member functions in the header and leave the object unchanged
(`AddBufferSpecs` writes only to the caller-supplied spec vector);
`Resolve` is the only mutator. -/
def HdOp.apply : HdOp → HdVtBufferSource → HdVtBufferSource
  | .resolve, b => b.Resolve.2
  | _, b => b

/-- The trace of object states produced by running a sequence of public
operations, starting state included. -/
def HdOp.trace : List HdOp → HdVtBufferSource → List HdVtBufferSource
  | [], b => [b]
  | op :: rest, b => b :: HdOp.trace rest (op.apply b)

/-- Final object state after a sequence of public operations. -/
def HdOp.applyAll (ops : List HdOp) (b : HdVtBufferSource) :
    HdVtBufferSource :=
  ops.foldl (fun s op => op.apply s) b

/-- One operation never decreases the resolution state and preserves
Resolved. -/
theorem hdOp_apply_state_mono (op : HdOp) (b : HdVtBufferSource) :
    b.state.ord ≤ (op.apply b).state.ord
    ∧ (b.state = HdResolutionState.Resolved →
        (op.apply b).state = HdResolutionState.Resolved) := by
  cases op
  case resolve =>
    cases hb : b.state <;>
      simp [HdOp.apply, HdVtBufferSource.Resolve, HdVtBufferSource._TryLock,
        HdVtBufferSource._SetResolved, hb, HdResolutionState.ord]
  all_goals simp [HdOp.apply]

/-- The execution trace always starts with the starting object. -/
theorem hdOp_trace_head (ops : List HdOp) (b : HdVtBufferSource) :
    (HdOp.trace ops b).head? = some b := by
  cases ops <;> simp [HdOp.trace]

/-- Consecutive states along any execution trace are ordered. -/
theorem hdOp_trace_chain (ops : List HdOp) (b : HdVtBufferSource) :
    List.Chain' (fun x y : HdVtBufferSource => x.state.ord ≤ y.state.ord)
      (HdOp.trace ops b) := by
  induction ops generalizing b with
  | nil => simp [HdOp.trace]
  | cons op rest ih =>
    rw [HdOp.trace, List.chain'_cons']
    refine ⟨?_, ih (op.apply b)⟩
    intro c hc
    rw [hdOp_trace_head] at hc
    simp only [Option.mem_def, Option.some.injEq] at hc
    subst hc
    exact (hdOp_apply_state_mono op b).1

/-- A resolved object stays resolved across any operation sequence. -/
theorem hdOp_applyAll_resolved (ops : List HdOp) (b : HdVtBufferSource)
    (hb : b.state = HdResolutionState.Resolved) :
    (HdOp.applyAll ops b).state = HdResolutionState.Resolved := by
  induction ops generalizing b with
  | nil => simpa [HdOp.applyAll] using hb
  | cons op rest ih =>
    have hstep := (hdOp_apply_state_mono op b).2 hb
    simpa [HdOp.applyAll] using ih (op.apply b) hstep

/-- C8: the resolution state is monotonic: along every sequence of
public operations on a source, consecutive states of the execution trace
only ever move forward through Unresolved, Resolving, Resolved (the
state order never decreases), and once Resolved the final state is still
Resolved. -/
theorem resolution_state_monotonic (b : HdVtBufferSource)
    (ops : List HdOp) :
    List.Chain' (fun x y : HdVtBufferSource => x.state.ord ≤ y.state.ord)
      (HdOp.trace ops b)
    ∧ (b.state = HdResolutionState.Resolved →
        (HdOp.applyAll ops b).state = HdResolutionState.Resolved) :=
  ⟨hdOp_trace_chain ops b, fun h => hdOp_applyAll_resolved ops b h⟩

/-- Witness for C8 at a concrete input: a resolved source stays resolved
across a concrete operation sequence, with a monotone trace. -/
theorem resolution_state_monotonic_witness :
    List.Chain' (fun x y : HdVtBufferSource => x.state.ord ≤ y.state.ord)
      (HdOp.trace [HdOp.resolve, HdOp.getData, HdOp.resolve]
        ((HdVtBufferSource.ofValue "points"
          (VtValue.floatArray [1, 2, 3]) 1).Resolve.2))
    ∧ (HdOp.applyAll [HdOp.resolve, HdOp.getData, HdOp.resolve]
        ((HdVtBufferSource.ofValue "points"
          (VtValue.floatArray [1, 2, 3]) 1).Resolve.2)).state
        = HdResolutionState.Resolved :=
  have h := resolution_state_monotonic
    ((HdVtBufferSource.ofValue "points"
      (VtValue.floatArray [1, 2, 3]) 1).Resolve.2)
    [HdOp.resolve, HdOp.getData, HdOp.resolve]
  ⟨h.1, h.2 (by decide)⟩

/-- Modelled from the spec: the program counter of one thread running the
header's `Resolve()` body.  The resolution-state field is "the only
mutable shared state and must use atomic compare-and-swap semantics", so
a thread takes two atomic steps: the `_TryLock` compare-and-swap
(`start`), then — only for the winner — the `_SetResolved` store
(`locked`); afterwards it is `done` with its return value. -/
inductive HdCallerPc where
  | start
  | locked
  | done (won : Bool)
deriving DecidableEq, Repr

/-- A configuration of M threads concurrently calling `Resolve()` on one
shared source: the shared resolution state together with each caller's
program counter. -/
structure HdResolveConfig where
  shared : HdResolutionState
  pcs : List HdCallerPc
deriving DecidableEq, Repr

/-- One atomic step of caller `i`: at `start` it performs the `_TryLock`
compare-and-swap (`Unresolved → Resolving` on success, immediate failure
return otherwise, per the header's `if (!_TryLock()) return false;`); at
`locked` it performs `_SetResolved` and returns true; a finished caller
takes no further steps. -/
def hdStepCaller (c : HdResolveConfig) (i : Nat) : HdResolveConfig :=
  match c.pcs[i]? with
  | none => c
  | some HdCallerPc.start =>
      if c.shared = HdResolutionState.Unresolved then
        ⟨HdResolutionState.Resolving, c.pcs.set i HdCallerPc.locked⟩
      else
        ⟨c.shared, c.pcs.set i (HdCallerPc.done false)⟩
  | some HdCallerPc.locked =>
      ⟨HdResolutionState.Resolved, c.pcs.set i (HdCallerPc.done true)⟩
  | some (HdCallerPc.done _) => c

/-- Run an arbitrary interleaving: the schedule lists which caller takes
each successive atomic step. -/
def hdRun (sched : List Nat) (c : HdResolveConfig) : HdResolveConfig :=
  sched.foldl hdStepCaller c

/-- Initial configuration: the shared source unresolved, all M callers
about to attempt `_TryLock`. -/
def hdInitConfig (M : Nat) : HdResolveConfig :=
  ⟨HdResolutionState.Unresolved, List.replicate M HdCallerPc.start⟩


/-- Occurrence count of one program-counter value in a caller list. -/
def hdCountPc (x : HdCallerPc) : List HdCallerPc → Nat
  | [] => 0
  | p :: rest => (if p = x then 1 else 0) + hdCountPc x rest

/-- Number of callers currently holding the resolving lock. -/
def hdCountLocked (c : HdResolveConfig) : Nat :=
  hdCountPc HdCallerPc.locked c.pcs

/-- Number of callers that completed believing they were the resolver
(their `Resolve()` call returned true). -/
def hdCountWinners (c : HdResolveConfig) : Nat :=
  hdCountPc (HdCallerPc.done true) c.pcs

/-- All callers have completed their `Resolve()` call. -/
def hdAllDone (c : HdResolveConfig) : Prop :=
  ∀ p ∈ c.pcs, ∃ w, p = HdCallerPc.done w

/-- A successfully indexed entry is a member of the list. -/
theorem hdGet?_mem (l : List HdCallerPc) (i : Nat) (a : HdCallerPc)
    (h : l[i]? = some a) : a ∈ l := by
  induction l generalizing i with
  | nil => simp at h
  | cons hd tl ih =>
    cases i with
    | zero =>
      simp only [List.getElem?_cons_zero, Option.some.injEq] at h
      exact h ▸ List.mem_cons_self hd tl
    | succ n =>
      simp only [List.getElem?_cons_succ] at h
      exact List.mem_cons_of_mem hd (ih n h)

/-- Updating one known entry of the list shifts any occurrence count by
exactly the exchange of old and new entry. -/
theorem hdCountPc_set (l : List HdCallerPc) (i : Nat) (a b x : HdCallerPc)
    (h : l[i]? = some a) :
    hdCountPc x (l.set i b) + (if a = x then 1 else 0)
      = hdCountPc x l + (if b = x then 1 else 0) := by
  induction l generalizing i with
  | nil => simp at h
  | cons hd tl ih =>
    cases i with
    | zero =>
      simp only [List.getElem?_cons_zero, Option.some.injEq] at h
      subst h
      simp only [List.set_cons_zero, hdCountPc]
      omega
    | succ n =>
      simp only [List.getElem?_cons_succ] at h
      have hrec := ih n h
      simp only [List.set_cons_succ, hdCountPc]
      omega

/-- A list none of whose members is `x` has occurrence count 0 at `x`. -/
theorem hdCountPc_eq_zero (x : HdCallerPc) (l : List HdCallerPc)
    (h : ∀ p ∈ l, p ≠ x) : hdCountPc x l = 0 := by
  induction l with
  | nil => rfl
  | cons hd tl ih =>
    have hhd : hd ≠ x := h hd (List.mem_cons_self hd tl)
    have htl := ih (fun p hp => h p (List.mem_cons_of_mem hd hp))
    simp [hdCountPc, hhd, htl]

/-- A member of the list has positive occurrence count. -/
theorem hdCountPc_pos_of_mem (x : HdCallerPc) (l : List HdCallerPc)
    (h : x ∈ l) : 0 < hdCountPc x l := by
  induction l with
  | nil => cases h
  | cons hd tl ih =>
    rcases List.mem_cons.mp h with hx | hx
    · simp [hdCountPc, hx.symm]
    · have := ih hx
      simp only [hdCountPc]
      omega

/-- The protocol invariant: the shared resolution state exactly reflects
how many callers hold the lock or have already won — while `Unresolved`
no caller has stepped at all; while `Resolving` exactly one caller holds
the lock and none has won; once `Resolved` nobody holds the lock and
exactly one caller has won. -/
def HdResolveInv (c : HdResolveConfig) : Prop :=
  (c.shared = HdResolutionState.Unresolved →
    ∀ p ∈ c.pcs, p = HdCallerPc.start)
  ∧ (c.shared = HdResolutionState.Resolving →
      hdCountLocked c = 1 ∧ hdCountWinners c = 0)
  ∧ (c.shared = HdResolutionState.Resolved →
      hdCountLocked c = 0 ∧ hdCountWinners c = 1)

/-- One atomic step preserves the protocol invariant. -/
theorem hdStepCaller_inv (c : HdResolveConfig) (i : Nat)
    (h : HdResolveInv c) : HdResolveInv (hdStepCaller c i) := by
  obtain ⟨h1, h2, h3⟩ := h
  cases hg : c.pcs[i]? with
  | none =>
    have he : hdStepCaller c i = c := by simp [hdStepCaller, hg]
    rw [he]
    exact ⟨h1, h2, h3⟩
  | some p =>
    have hmem : p ∈ c.pcs := hdGet?_mem c.pcs i p hg
    cases p with
    | start =>
      by_cases hs : c.shared = HdResolutionState.Unresolved
      · have he : hdStepCaller c i
            = ⟨HdResolutionState.Resolving, c.pcs.set i HdCallerPc.locked⟩ := by
          simp [hdStepCaller, hg, hs]
        have hall := h1 hs
        have hzl : hdCountPc HdCallerPc.locked c.pcs = 0 :=
          hdCountPc_eq_zero _ _
            (fun p hp => by rw [hall p hp]; exact fun hx => by cases hx)
        have hzw : hdCountPc (HdCallerPc.done true) c.pcs = 0 :=
          hdCountPc_eq_zero _ _
            (fun p hp => by rw [hall p hp]; exact fun hx => by cases hx)
        have hl := hdCountPc_set c.pcs i HdCallerPc.start HdCallerPc.locked
          HdCallerPc.locked hg
        have hw := hdCountPc_set c.pcs i HdCallerPc.start HdCallerPc.locked
          (HdCallerPc.done true) hg
        rw [show (if HdCallerPc.start = HdCallerPc.locked then (1 : Nat) else 0)
              = 0 from rfl,
            show (if HdCallerPc.locked = HdCallerPc.locked then (1 : Nat) else 0)
              = 1 from rfl] at hl
        rw [show (if HdCallerPc.start = HdCallerPc.done true then (1 : Nat) else 0)
              = 0 from rfl,
            show (if HdCallerPc.locked = HdCallerPc.done true then (1 : Nat) else 0)
              = 0 from rfl] at hw
        rw [he]
        refine ⟨fun hu => by simp at hu, fun _ => ?_, fun hr => by simp at hr⟩
        constructor
        · simp only [hdCountLocked]
          omega
        · simp only [hdCountWinners]
          omega
      · have he : hdStepCaller c i
            = ⟨c.shared, c.pcs.set i (HdCallerPc.done false)⟩ := by
          simp [hdStepCaller, hg, hs]
        have hl := hdCountPc_set c.pcs i HdCallerPc.start
          (HdCallerPc.done false) HdCallerPc.locked hg
        have hw := hdCountPc_set c.pcs i HdCallerPc.start
          (HdCallerPc.done false) (HdCallerPc.done true) hg
        rw [show (if HdCallerPc.start = HdCallerPc.locked then (1 : Nat) else 0)
              = 0 from rfl,
            show (if HdCallerPc.done false = HdCallerPc.locked then (1 : Nat) else 0)
              = 0 from rfl] at hl
        rw [show (if HdCallerPc.start = HdCallerPc.done true then (1 : Nat) else 0)
              = 0 from rfl,
            show (if HdCallerPc.done false = HdCallerPc.done true then (1 : Nat) else 0)
              = 0 from rfl] at hw
        rw [he]
        refine ⟨fun hu => absurd hu hs, fun hv => ?_, fun hr => ?_⟩
        · obtain ⟨ha, hb⟩ := h2 hv
          simp only [hdCountLocked, hdCountWinners] at ha hb ⊢
          omega
        · obtain ⟨ha, hb⟩ := h3 hr
          simp only [hdCountLocked, hdCountWinners] at ha hb ⊢
          omega
    | locked =>
      have hs : c.shared = HdResolutionState.Resolving := by
        cases hc : c.shared with
        | Unresolved => cases h1 hc _ hmem
        | Resolving => rfl
        | Resolved =>
          exfalso
          have hz := (h3 hc).1
          have hpos := hdCountPc_pos_of_mem HdCallerPc.locked c.pcs hmem
          simp only [hdCountLocked] at hz
          omega
      have he : hdStepCaller c i
          = ⟨HdResolutionState.Resolved, c.pcs.set i (HdCallerPc.done true)⟩ := by
        simp [hdStepCaller, hg]
      obtain ⟨ha, hb⟩ := h2 hs
      have hl := hdCountPc_set c.pcs i HdCallerPc.locked
        (HdCallerPc.done true) HdCallerPc.locked hg
      have hw := hdCountPc_set c.pcs i HdCallerPc.locked
        (HdCallerPc.done true) (HdCallerPc.done true) hg
      rw [show (if HdCallerPc.locked = HdCallerPc.locked then (1 : Nat) else 0)
            = 1 from rfl,
          show (if HdCallerPc.done true = HdCallerPc.locked then (1 : Nat) else 0)
            = 0 from rfl] at hl
      rw [show (if HdCallerPc.locked = HdCallerPc.done true then (1 : Nat) else 0)
            = 0 from rfl,
          show (if HdCallerPc.done true = HdCallerPc.done true then (1 : Nat) else 0)
            = 1 from rfl] at hw
      rw [he]
      refine ⟨fun hu => by simp at hu, fun hv => by simp at hv, fun _ => ?_⟩
      simp only [hdCountLocked, hdCountWinners] at ha hb ⊢
      constructor <;> omega
    | done w =>
      have he : hdStepCaller c i = c := by simp [hdStepCaller, hg]
      rw [he]
      exact ⟨h1, h2, h3⟩

/-- Any interleaving preserves the protocol invariant. -/
theorem hdRun_inv (sched : List Nat) (c : HdResolveConfig)
    (h : HdResolveInv c) : HdResolveInv (hdRun sched c) := by
  induction sched generalizing c with
  | nil => exact h
  | cons i rest ih => exact ih (hdStepCaller c i) (hdStepCaller_inv c i h)

/-- The initial configuration satisfies the protocol invariant. -/
theorem hdInit_inv (M : Nat) : HdResolveInv (hdInitConfig M) := by
  refine ⟨fun _ p hp => List.eq_of_mem_replicate hp,
    fun hv => by simp [hdInitConfig] at hv,
    fun hr => by simp [hdInitConfig] at hr⟩

/-- Once the shared state is Resolved it stays Resolved under every
further step. -/
theorem hdStepCaller_resolved (c : HdResolveConfig) (i : Nat)
    (h : c.shared = HdResolutionState.Resolved) :
    (hdStepCaller c i).shared = HdResolutionState.Resolved := by
  unfold hdStepCaller
  cases hg : c.pcs[i]? with
  | none => exact h
  | some p =>
    cases p with
    | start =>
      rw [h]
      simp
    | locked => rfl
    | done w => exact h

/-- Once the shared state is Resolved it stays Resolved under every
further interleaving. -/
theorem hdRun_resolved (sched : List Nat) (c : HdResolveConfig)
    (h : c.shared = HdResolutionState.Resolved) :
    (hdRun sched c).shared = HdResolutionState.Resolved := by
  induction sched generalizing c with
  | nil => exact h
  | cons i rest ih => exact ih (hdStepCaller c i) (hdStepCaller_resolved c i h)

/-- Under the invariant, never more than one caller believes it is the
resolver. -/
theorem hdInv_winners_le_one (c : HdResolveConfig) (h : HdResolveInv c) :
    hdCountWinners c ≤ 1 := by
  obtain ⟨h1, h2, h3⟩ := h
  cases hc : c.shared with
  | Unresolved =>
    have hz : hdCountPc (HdCallerPc.done true) c.pcs = 0 :=
      hdCountPc_eq_zero _ _
        (fun p hp => by rw [h1 hc p hp]; exact fun hx => by cases hx)
    simp [hdCountWinners, hz]
  | Resolving =>
    have := (h2 hc).2
    omega
  | Resolved =>
    have := (h3 hc).2
    omega

/-- Steps preserve the number of callers. -/
theorem hdStepCaller_length (c : HdResolveConfig) (i : Nat) :
    (hdStepCaller c i).pcs.length = c.pcs.length := by
  unfold hdStepCaller
  cases hg : c.pcs[i]? with
  | none => rfl
  | some p =>
    cases p with
    | start =>
      by_cases hs : c.shared = HdResolutionState.Unresolved <;>
        simp [hs, List.length_set]
    | locked => simp [List.length_set]
    | done w => rfl

/-- Interleavings preserve the number of callers. -/
theorem hdRun_length (sched : List Nat) (c : HdResolveConfig) :
    (hdRun sched c).pcs.length = c.pcs.length := by
  induction sched generalizing c with
  | nil => rfl
  | cons i rest ih =>
    calc (hdRun rest (hdStepCaller c i)).pcs.length
        = (hdStepCaller c i).pcs.length := ih (hdStepCaller c i)
      _ = c.pcs.length := hdStepCaller_length c i

/-- Under the invariant, a configuration with at least one caller in
which every caller has completed must have shared state Resolved. -/
theorem hdInv_allDone_resolved (c : HdResolveConfig)
    (h : HdResolveInv c) (hne : c.pcs ≠ []) (hdone : hdAllDone c) :
    c.shared = HdResolutionState.Resolved := by
  obtain ⟨h1, h2, h3⟩ := h
  cases hc : c.shared with
  | Unresolved =>
    exfalso
    cases hp : c.pcs with
    | nil => exact hne hp
    | cons q qs =>
      have hq : q ∈ c.pcs := hp ▸ List.mem_cons_self q qs
      obtain ⟨w, hw⟩ := hdone q hq
      have := h1 hc q hq
      rw [this] at hw
      cases hw
  | Resolving =>
    exfalso
    have hl := (h2 hc).1
    have : ∀ p ∈ c.pcs, p ≠ HdCallerPc.locked := by
      intro p hp hcontra
      obtain ⟨w, hw⟩ := hdone p hp
      rw [hcontra] at hw
      cases hw
    have hz := hdCountPc_eq_zero HdCallerPc.locked c.pcs this
    simp only [hdCountLocked] at hl
    omega
  | Resolved => rfl

/-- C2: when M ≥ 1 threads run `Resolve()` concurrently on the same
unresolved source — modelled as an arbitrary interleaving `sched` of the
two atomic steps of each caller (`_TryLock` compare-and-swap, then
`_SetResolved`) — no two callers ever both believe they are the resolver
(at most one winner at every point, and exactly one winner whenever the
shared state has become Resolved, in particular whenever all callers have
completed), and once the winner completes, every caller observes the
Resolved state from then on, under every further interleaving. -/
theorem resolve_concurrent_exactly_one (M : Nat) (sched extra : List Nat)
    (hM : 0 < M) :
    hdCountWinners (hdRun sched (hdInitConfig M)) ≤ 1
    ∧ ((hdRun sched (hdInitConfig M)).shared = HdResolutionState.Resolved →
        hdCountWinners (hdRun sched (hdInitConfig M)) = 1)
    ∧ ((hdRun sched (hdInitConfig M)).shared = HdResolutionState.Resolved →
        (hdRun extra (hdRun sched (hdInitConfig M))).shared
          = HdResolutionState.Resolved)
    ∧ (hdAllDone (hdRun sched (hdInitConfig M)) →
        (hdRun sched (hdInitConfig M)).shared = HdResolutionState.Resolved
        ∧ hdCountWinners (hdRun sched (hdInitConfig M)) = 1) := by
  have hinv : HdResolveInv (hdRun sched (hdInitConfig M)) :=
    hdRun_inv sched (hdInitConfig M) (hdInit_inv M)
  have hne : (hdRun sched (hdInitConfig M)).pcs ≠ [] := by
    have hlen : (hdRun sched (hdInitConfig M)).pcs.length = M := by
      rw [hdRun_length]
      simp [hdInitConfig]
    intro hnil
    rw [hnil] at hlen
    simp at hlen
    omega
  refine ⟨hdInv_winners_le_one _ hinv, fun hr => (hinv.2.2 hr).2, ?_, ?_⟩
  · intro hr
    exact hdRun_resolved extra _ hr
  · intro hdone
    have hr := hdInv_allDone_resolved _ hinv hne hdone
    exact ⟨hr, (hinv.2.2 hr).2⟩

/-- Witness for C2 at a concrete input: three callers, an interleaving
in which caller 0 wins the lock, caller 1 loses, caller 0 completes,
caller 2 then observes Resolved; exactly one winner, and the state stays
Resolved under a further step. -/
theorem resolve_concurrent_exactly_one_witness :
    0 < 3
    ∧ hdCountWinners (hdRun [0, 1, 0, 1, 2] (hdInitConfig 3)) ≤ 1
    ∧ hdCountWinners (hdRun [0, 1, 0, 1, 2] (hdInitConfig 3)) = 1
    ∧ (hdRun [2] (hdRun [0, 1, 0, 1, 2] (hdInitConfig 3))).shared
        = HdResolutionState.Resolved
    ∧ (hdRun [0, 1, 0, 1, 2] (hdInitConfig 3)).shared
        = HdResolutionState.Resolved :=
  have h := resolve_concurrent_exactly_one 3 [0, 1, 0, 1, 2] [2] (by decide)
  ⟨by decide, h.1, h.2.1 (by decide), h.2.2.1 (by decide), by decide⟩
